import Mathlib

set_option maxRecDepth 8000

/-!
Shallow embedding of `src/Blackjack/blackjack.py`.

The Python module defines pure hand-scoring helpers (`usable_ace`, `sum_hand`,
`is_bust`, `score`, `is_natural`, `cmp`), an infinite-deck simulator
(`BlackjackEnv`) drawing i.i.d. cards, a finite 52-card shoe (`Deck`) and a
finite-deck simulator (`MyBlackjackEnv`) that tracks an exposure record of
cards drawn since the last reshuffle.

Randomness is embedded as an explicit stream: a `List Nat` of the successive
outputs of the random source (card values for the infinite deck, indices into
the remaining shoe for the finite deck).  A call that would need more random
outputs than the stream supplies, or that the Python code would abort with an
exception (failed assertion / unbound local on an invalid action, drawing from
an empty shoe), returns `none`.  Rewards are Python floats taking only values
in {-2, -3/2, -1, 0, 1, 3/2, 2, 3}; they are embedded as rationals.
-/

namespace Blackjack

/-- Python `cmp(a, b) = float(a > b) - float(a < b)`. -/
def cmp (a b : Nat) : ℚ :=
  (if a > b then (1 : ℚ) else 0) - (if a < b then (1 : ℚ) else 0)

/-- Python `usable_ace(hand)`: `1 in hand and sum(hand) + 10 <= 21`. -/
def usable_ace (hand : List Nat) : Bool :=
  hand.contains 1 && decide (hand.sum + 10 ≤ 21)

/-- Python `sum_hand(hand)`: the raw sum, plus 10 when the ace is usable. -/
def sum_hand (hand : List Nat) : Nat :=
  if usable_ace hand then hand.sum + 10 else hand.sum

/-- Python `is_bust(hand)`: `sum_hand(hand) > 21`. -/
def is_bust (hand : List Nat) : Bool :=
  decide (sum_hand hand > 21)

/-- Python `score(hand)`: `0 if is_bust(hand) else sum_hand(hand)`. -/
def score (hand : List Nat) : Nat :=
  if is_bust hand then 0 else sum_hand hand

/-- Insertion into a sorted list, used to embed Python `sorted`. -/
def insertSorted (x : Nat) : List Nat → List Nat
  | [] => [x]
  | y :: ys => if x ≤ y then x :: y :: ys else y :: insertSorted x ys

/-- Embedding of Python `sorted` on lists of card values. -/
def pySorted (l : List Nat) : List Nat :=
  l.foldr insertSorted []

/-- Python `is_natural(hand)`: `sorted(hand) == [1, 10]`. -/
def is_natural (hand : List Nat) : Bool :=
  pySorted hand == [1, 10]

/-- Observation `_get_obs`: `(sum_hand(player), dealer[0], usable_ace(player))`. -/
def getObs (player dealer : List Nat) : Nat × Nat × Bool :=
  (sum_hand player, dealer.headD 0, usable_ace player)

/-- Result of one `BlackjackEnv.step` call: the two hands after the call, the
returned observation, reward and done flag, and the unconsumed tail of the
random stream. -/
structure BJStep where
  player : List Nat
  dealer : List Nat
  obs : Nat × Nat × Bool
  reward : ℚ
  done : Bool
  rest : List Nat
deriving DecidableEq

/-- The dealer loop `while sum_hand(self.dealer) < 17: dealer.append(draw_card())`
of `BlackjackEnv.step`, consuming cards from the stream; `none` when the
stream runs out before the loop exits. -/
def dealerPlay : List Nat → List Nat → Option (List Nat × List Nat)
  | dealer, [] => if sum_hand dealer < 17 then none else some (dealer, [])
  | dealer, c :: rest =>
    if sum_hand dealer < 17 then dealerPlay (dealer ++ [c]) rest
    else some (dealer, c :: rest)

/-- Python `BlackjackEnv.step(action)` (infinite deck).  The entry `assert
self.action_space.contains(action)` rejects any action outside {0,1,2}; an
assertion failure is embedded as `none`. -/
def BlackjackEnv.step (natural : Bool) (player dealer : List Nat) (action : Nat)
    (stream : List Nat) : Option BJStep :=
  if action = 1 then
    match stream with
    | [] => none
    | c :: rest =>
      let player' := player ++ [c]
      if is_bust player' then
        some ⟨player', dealer, getObs player' dealer, -1, true, rest⟩
      else
        some ⟨player', dealer, getObs player' dealer, 0, false, rest⟩
  else if action = 0 then
    match dealerPlay dealer stream with
    | none => none
    | some (dealer', rest) =>
      let base := cmp (score player) (score dealer')
      let reward := if natural = true ∧ is_natural player = true ∧ base = 1 then (3 / 2 : ℚ) else base
      some ⟨player, dealer', getObs player dealer', reward, true, rest⟩
  else if action = 2 then
    match stream with
    | [] => none
    | c :: rest =>
      let player' := player ++ [c]
      match dealerPlay dealer rest with
      | none => none
      | some (dealer', rest') =>
        let base := cmp (score player') (score dealer')
        let reward := if natural = true ∧ is_natural player' = true ∧ base = 1 then (3 / 2 : ℚ) else base
        some ⟨player', dealer', getObs player' dealer', 2 * reward, true, rest'⟩
  else none

/-- Python `draw_hand` followed by `reset`: two cards each for dealer then
player, returning the hands, the observation and the leftover stream. -/
def BlackjackEnv.reset (stream : List Nat) :
    Option (List Nat × List Nat × (Nat × Nat × Bool) × List Nat) :=
  match stream with
  | d1 :: d2 :: p1 :: p2 :: rest =>
    some ([p1, p2], [d1, d2], getObs [p1, p2] [d1, d2], rest)
  | _ => none

/-- Python `Deck.reset`: `[i for i in range(1, 11)]*4` followed by
`+= (4*3)*[10]` — four copies of 1..10 plus twelve extra 10s. -/
def Deck.reset : List Nat :=
  List.range' 1 10 ++ List.range' 1 10 ++ List.range' 1 10 ++ List.range' 1 10 ++
    List.replicate 12 10

/-- Python `Deck.draw`: remove the card at a uniformly random index
(`np.random.randint(0, len(self.cards))`, embedded as `n % cards.length` so
that the supplied random output is always in range); if the list becomes
empty, repopulate it via `reset` and report `reseted = true`.  Drawing from an
already-empty list (impossible across calls) would raise in Python and is
embedded as `none`. -/
def Deck.draw (cards : List Nat) (n : Nat) : Option (Nat × Bool × List Nat) :=
  if cards.isEmpty then none
  else
    let i := n % cards.length
    let card := cards.getD i 0
    let rest := cards.eraseIdx i
    if rest.isEmpty then some (card, true, Deck.reset) else some (card, false, rest)

/-- State of `MyBlackjackEnv`: the shoe (`self.deck.cards`), the `natural`
flag, the two hands, and the exposure record `self.cards` of card values
drawn since the last reshuffle. -/
structure MyEnv where
  deck : List Nat
  natural : Bool
  player : List Nat
  dealer : List Nat
  cards : List Nat
deriving DecidableEq

/-- Python `MyBlackjackEnv.cards_to_index`: a length-10 histogram where entry
`card - 1` is incremented once per recorded card. -/
def cards_to_index (cs : List Nat) : List Nat :=
  cs.foldl (fun ix card => ix.set (card - 1) (ix.getD (card - 1) 0 + 1))
    (List.replicate 10 0)

/-- The draw-and-record pattern repeated at every draw site of
`MyBlackjackEnv` (`reset` and all three `step` branches):
`card, reseted_ = self.deck.draw(); self.cards.append(card);
if reseted_: self.cards = []`. -/
def MyEnv.drawRecord (s : MyEnv) (n : Nat) : Option (Nat × Bool × MyEnv) :=
  match Deck.draw s.deck n with
  | none => none
  | some (card, reseted, deck') =>
    let cards0 := s.cards ++ [card]
    let cards' := if reseted then [] else cards0
    some (card, reseted, { s with deck := deck', cards := cards' })

/-- Result of one `MyBlackjackEnv.step` (or `reset`) call: the environment
after the call, the returned observation, reward, done flag and cumulative
reshuffle flag, and the unconsumed tail of the random index stream. -/
structure MyStep where
  env : MyEnv
  obs : Nat × Nat × Bool
  reward : ℚ
  done : Bool
  reseted : Bool
  rest : List Nat
deriving DecidableEq

/-- The dealer loop of `MyBlackjackEnv.step` (stick and double branches):
while `sum_hand(self.dealer) < 17`, draw from the shoe, record the card into
the exposure record (cleared on reshuffle) and append it to the dealer's
hand, accumulating the reshuffle flag. -/
def MyEnv.dealerLoop : MyEnv → Bool → List Nat → Option (MyEnv × Bool × List Nat)
  | s, reseted, [] =>
    if sum_hand s.dealer < 17 then none else some (s, reseted, [])
  | s, reseted, n :: rest =>
    if sum_hand s.dealer < 17 then
      match s.drawRecord n with
      | none => none
      | some (card, reseted', s') =>
        MyEnv.dealerLoop { s' with dealer := s'.dealer ++ [card] } (reseted || reseted') rest
    else some (s, reseted, n :: rest)

/-- Python `MyBlackjackEnv.step(action)` (finite deck).  An action outside
{0,1,2} falls through all three branches and the trailing
`return self._get_obs(), reward, done, reseted` raises `UnboundLocalError`
(`reward`/`done` were never assigned), embedded as `none`. -/
def MyEnv.step (s : MyEnv) (action : Nat) (stream : List Nat) : Option MyStep :=
  if action = 1 then
    match stream with
    | [] => none
    | n :: rest =>
      match s.drawRecord n with
      | none => none
      | some (card, reseted, s1) =>
        let s2 := { s1 with player := s1.player ++ [card] }
        if is_bust s2.player then
          some ⟨s2, getObs s2.player s2.dealer, -1, true, reseted, rest⟩
        else
          some ⟨s2, getObs s2.player s2.dealer, 0, false, reseted, rest⟩
  else if action = 0 then
    match MyEnv.dealerLoop s false stream with
    | none => none
    | some (s', reseted, rest) =>
      let base := cmp (score s'.player) (score s'.dealer)
      let reward := if s'.natural = true ∧ is_natural s'.player = true ∧ base = 1 then (3 / 2 : ℚ) else base
      some ⟨s', getObs s'.player s'.dealer, reward, true, reseted, rest⟩
  else if action = 2 then
    match stream with
    | [] => none
    | n :: rest =>
      match s.drawRecord n with
      | none => none
      | some (card, reseted0, s1) =>
        let s2 := { s1 with player := s1.player ++ [card] }
        match MyEnv.dealerLoop s2 reseted0 rest with
        | none => none
        | some (s', reseted, rest') =>
          let base := cmp (score s'.player) (score s'.dealer)
          let reward := if s'.natural = true ∧ is_natural s'.player = true ∧ base = 1 then (3 / 2 : ℚ) else base
          some ⟨s', getObs s'.player s'.dealer, 2 * reward, true, reseted, rest'⟩
  else none

/-- Python `MyBlackjackEnv.reset`: empty both hands, then draw two cards for
the dealer and two for the player through the draw-and-record pattern,
accumulating the reshuffle flag across the four draws. -/
def MyEnv.reset (s : MyEnv) (stream : List Nat) : Option MyStep :=
  match stream with
  | n1 :: n2 :: n3 :: n4 :: rest =>
    let s0 := { s with player := [], dealer := [] }
    match s0.drawRecord n1 with
    | none => none
    | some (c1, r1, t1) =>
      let t1 := { t1 with dealer := t1.dealer ++ [c1] }
      match t1.drawRecord n2 with
      | none => none
      | some (c2, r2, t2) =>
        let t2 := { t2 with dealer := t2.dealer ++ [c2] }
        match t2.drawRecord n3 with
        | none => none
        | some (c3, r3, t3) =>
          let t3 := { t3 with player := t3.player ++ [c3] }
          match t3.drawRecord n4 with
          | none => none
          | some (c4, r4, t4) =>
            let t4 := { t4 with player := t4.player ++ [c4] }
            some ⟨t4, getObs t4.player t4.dealer, 0, false, r1 || r2 || r3 || r4, rest⟩
  | _ => none

/-- Iterating `Deck.draw` over a stream of random indices, collecting the
reshuffle flag of every draw and the final shoe. -/
def drawN : List Nat → List Nat → Option (List Bool × List Nat)
  | cards, [] => some ([], cards)
  | cards, n :: ns =>
    match Deck.draw cards n with
    | none => none
    | some (_card, r, cards') =>
      match drawN cards' ns with
      | none => none
      | some (flags, final) => some (r :: flags, final)

/-! ### Helper lemmas -/

lemma Deck.reset_ne_nil : Deck.reset ≠ [] := by decide

lemma Deck.draw_of_length_one {cards : List Nat} (h : cards.length = 1) (n : Nat) :
    Deck.draw cards n = some (cards.getD 0 0, true, Deck.reset) := by
  obtain ⟨a, rfl⟩ := List.length_eq_one.mp h
  have hmod : n % 1 = 0 := Nat.mod_one n
  simp [Deck.draw, hmod]

lemma Deck.draw_of_length_gt_one {cards : List Nat} (h : 1 < cards.length) (n : Nat) :
    Deck.draw cards n =
      some (cards.getD (n % cards.length) 0, false, cards.eraseIdx (n % cards.length)) := by
  unfold Deck.draw
  have hne : ¬ cards.isEmpty = true := by
    simp [List.isEmpty_iff]
    intro hnil
    rw [hnil] at h
    simp at h
  rw [if_neg hne]
  have herase : ¬ (cards.eraseIdx (n % cards.length)).isEmpty = true := by
    rw [List.isEmpty_iff, ← List.length_eq_zero]
    rw [List.length_eraseIdx_of_lt (Nat.mod_lt n (by omega))]
    omega
  simp [herase]

lemma Deck.draw_result_ne_nil {cards : List Nat} {n c : Nat} {r : Bool} {cards' : List Nat}
    (h : Deck.draw cards n = some (c, r, cards')) : cards' ≠ [] := by
  unfold Deck.draw at h
  by_cases hne : cards.isEmpty = true
  · rw [if_pos hne] at h; cases h
  · rw [if_neg hne] at h
    by_cases hem : (cards.eraseIdx (n % cards.length)).isEmpty = true
    · rw [if_pos hem] at h
      injection h with h
      injection h with h1 h
      injection h with h2 h3
      subst h3
      exact Deck.reset_ne_nil
    · rw [if_neg hem] at h
      injection h with h
      injection h with h1 h
      injection h with h2 h3
      subst h3
      simpa [List.isEmpty_iff] using hem

/-- Drawing through a full pass of the shoe: with exactly as many draws as
cards, every draw but the last reports no reshuffle, the last draw reports
the reshuffle, and the shoe ends repopulated. -/
lemma drawN_full_pass :
    ∀ (ns cards : List Nat), cards ≠ [] → cards.length = ns.length →
      drawN cards ns = some (List.replicate (ns.length - 1) false ++ [true], Deck.reset) := by
  intro ns
  induction ns with
  | nil =>
    intro cards hne hlen
    simp at hlen
    exact absurd hlen hne
  | cons n ns ih =>
    intro cards hne hlen
    cases hns : ns with
    | nil =>
      subst hns
      simp at hlen
      unfold drawN
      rw [Deck.draw_of_length_one hlen n]
      simp [drawN]
    | cons m ms =>
      subst hns
      have hgt : 1 < cards.length := by
        rw [hlen]; simp
      unfold drawN
      rw [Deck.draw_of_length_gt_one hgt n]
      have hlen' : (cards.eraseIdx (n % cards.length)).length = (m :: ms).length := by
        rw [List.length_eraseIdx_of_lt (Nat.mod_lt n (by omega))]
        simp at hlen ⊢
        omega
      have hne' : cards.eraseIdx (n % cards.length) ≠ [] := by
        rw [← List.length_pos]
        rw [hlen']
        simp
      simp only [ih _ hne' hlen']
      simp [List.replicate_succ]

lemma getD_set_eq_ite (l : List Nat) :
    ∀ (i j a : Nat), (l.set i a).getD j 0 = if i = j ∧ j < l.length then a else l.getD j 0 := by
  induction l with
  | nil => intro i j a; simp
  | cons x xs ih =>
    intro i j a
    cases i with
    | zero =>
      cases j with
      | zero => simp
      | succ j => simp
    | succ i =>
      cases j with
      | zero => simp
      | succ j =>
        show (xs.set i a).getD j 0 =
          if i + 1 = j + 1 ∧ j + 1 < (x :: xs).length then a else xs.getD j 0
        rw [ih i j a]
        simp only [List.length_cons]
        by_cases hij : i = j
        · subst hij
          by_cases hlt : i < xs.length
          · rw [if_pos ⟨rfl, hlt⟩, if_pos ⟨rfl, by omega⟩]
          · rw [if_neg (by tauto), if_neg (by omega)]
        · rw [if_neg (by tauto), if_neg (by omega)]

lemma getD_replicate_zero (n i : Nat) : (List.replicate n (0 : Nat)).getD i 0 = 0 := by
  simp [List.getD_eq_getElem?_getD]

lemma length_foldl_hist :
    ∀ (cs acc : List Nat),
      (cs.foldl (fun ix card => ix.set (card - 1) (ix.getD (card - 1) 0 + 1)) acc).length
        = acc.length := by
  intro cs
  induction cs with
  | nil => intro acc; rfl
  | cons c cs ih =>
    intro acc
    rw [List.foldl_cons, ih]
    simp

lemma foldl_hist_getD :
    ∀ (cs acc : List Nat), acc.length = 10 → (∀ c ∈ cs, 1 ≤ c ∧ c ≤ 10) →
      ∀ i, i < 10 →
        (cs.foldl (fun ix card => ix.set (card - 1) (ix.getD (card - 1) 0 + 1)) acc).getD i 0
          = acc.getD i 0 + cs.count (i + 1) := by
  intro cs
  induction cs with
  | nil => intro acc _ _ i _; simp
  | cons c cs ih =>
    intro acc hlen hmem i hi
    rw [List.foldl_cons]
    have hc := hmem c (by simp)
    have hlen' : (acc.set (c - 1) (acc.getD (c - 1) 0 + 1)).length = 10 := by
      simp [hlen]
    rw [ih _ hlen' (fun x hx => hmem x (by simp [hx])) i hi]
    rw [getD_set_eq_ite, List.count_cons, hlen]
    by_cases hci : c = i + 1
    · rw [if_pos (show c - 1 = i ∧ i < 10 by omega),
        if_pos (show (c == i + 1) = true by simpa using hci)]
      have hsub : c - 1 = i := by omega
      rw [hsub]
      omega
    · rw [if_neg (show ¬(c - 1 = i ∧ i < 10) by omega),
        if_neg (show ¬((c == i + 1) = true) by simpa using hci)]
      omega

/-- The exposure histogram counts, at index `v - 1`, the occurrences of value
`v` in the record. -/
lemma cards_to_index_count {cs : List Nat} (hcs : ∀ c ∈ cs, 1 ≤ c ∧ c ≤ 10)
    {v : Nat} (h1 : 1 ≤ v) (h10 : v ≤ 10) :
    (cards_to_index cs).getD (v - 1) 0 = cs.count v := by
  unfold cards_to_index
  rw [foldl_hist_getD cs (List.replicate 10 0) (by simp) hcs (v - 1) (by omega)]
  rw [getD_replicate_zero]
  have : v - 1 + 1 = v := by omega
  rw [this]
  omega

lemma usable_ace_iff (hand : List Nat) :
    usable_ace hand = true ↔ 1 ∈ hand ∧ hand.sum + 10 ≤ 21 := by
  simp [usable_ace, List.contains]

lemma score_of_bust {hand : List Nat} (h : is_bust hand = true) : score hand = 0 := by
  simp [score, h]

lemma cmp_eq_cases (a b : Nat) : cmp a b = -1 ∨ cmp a b = 0 ∨ cmp a b = 1 := by
  unfold cmp
  rcases lt_trichotomy a b with h | h | h
  · left; rw [if_neg (by omega), if_pos h]; norm_num
  · right; left; rw [if_neg (by omega), if_neg (by omega)]; norm_num
  · right; right; rw [if_pos h, if_neg (by omega)]; norm_num

lemma insertSorted_length (x : Nat) (l : List Nat) :
    (insertSorted x l).length = l.length + 1 := by
  induction l with
  | nil => rfl
  | cons y ys ih =>
    unfold insertSorted
    by_cases h : x ≤ y <;> simp [h, ih]

lemma pySorted_length (l : List Nat) : (pySorted l).length = l.length := by
  unfold pySorted
  induction l with
  | nil => rfl
  | cons y ys ih => simp [List.foldr, insertSorted_length, ih]

lemma is_natural_length {hand : List Nat} (h : is_natural hand = true) :
    hand.length = 2 := by
  unfold is_natural at h
  have h2 : pySorted hand = [1, 10] := by simpa using h
  have := pySorted_length hand
  rw [h2] at this
  simp at this
  omega

lemma is_natural_of_long {hand : List Nat} (h : 3 ≤ hand.length) :
    is_natural hand = false := by
  by_contra hc
  have := is_natural_length (by simpa using Bool.of_not_eq_false hc)
  omega

/-- The dealer loop of the infinite-deck simulator: the final hand extends the
initial one by the consumed prefix of the stream, each draw happens with the
running total still below 17, and the loop exits at total ≥ 17. -/
lemma dealerPlay_spec :
    ∀ (stream dealer d' rest : List Nat), dealerPlay dealer stream = some (d', rest) →
      17 ≤ sum_hand d' ∧ ∃ taken, d' = dealer ++ taken ∧ stream = taken ++ rest ∧
        ∀ k, k < taken.length → sum_hand (dealer ++ taken.take k) < 17 := by
  intro stream
  induction stream with
  | nil =>
    intro dealer d' rest h
    unfold dealerPlay at h
    by_cases hlt : sum_hand dealer < 17
    · simp [hlt] at h
    · rw [if_neg hlt] at h
      injection h with h
      injection h with h1 h2
      subst h1; subst h2
      exact ⟨by omega, [], by simp, by simp, by simp⟩
  | cons c s ih =>
    intro dealer d' rest h
    unfold dealerPlay at h
    by_cases hlt : sum_hand dealer < 17
    · rw [if_pos hlt] at h
      obtain ⟨h17, taken, hd, hs, hk⟩ := ih (dealer ++ [c]) d' rest h
      refine ⟨h17, c :: taken, by simpa using hd, by simpa using hs, ?_⟩
      intro k hklen
      cases k with
      | zero => simpa using hlt
      | succ j =>
        have := hk j (by simpa using hklen)
        rw [List.append_assoc] at this
        simpa [List.take_succ_cons] using this
    · rw [if_neg hlt] at h
      injection h with h
      injection h with h1 h2
      subst h1; subst h2
      exact ⟨by omega, [], by simp, by simp, by simp⟩

lemma drawRecord_frame {s : MyEnv} {n card : Nat} {r : Bool} {t : MyEnv}
    (h : s.drawRecord n = some (card, r, t)) :
    t.player = s.player ∧ t.dealer = s.dealer ∧ t.natural = s.natural ∧
      t.cards = (if r then [] else s.cards ++ [card]) := by
  unfold MyEnv.drawRecord at h
  cases hd : Deck.draw s.deck n with
  | none => rw [hd] at h; cases h
  | some v =>
    obtain ⟨c0, r0, deck'⟩ := v
    rw [hd] at h
    injection h with h
    injection h with h1 h
    injection h with h2 h3
    subst h1; subst h2; subst h3
    simp

/-- The dealer loop of the finite-deck simulator: player hand, natural flag
are untouched; the dealer hand extends the initial one, each draw happens
with the running total still below 17, and the loop exits at total ≥ 17. -/
lemma dealerLoop_spec :
    ∀ (stream : List Nat) (s : MyEnv) (r : Bool) (s' : MyEnv) (r' : Bool) (rest : List Nat),
      MyEnv.dealerLoop s r stream = some (s', r', rest) →
      s'.player = s.player ∧ s'.natural = s.natural ∧ 17 ≤ sum_hand s'.dealer ∧
        ∃ taken, s'.dealer = s.dealer ++ taken ∧
          ∀ k, k < taken.length → sum_hand (s.dealer ++ taken.take k) < 17 := by
  intro stream
  induction stream with
  | nil =>
    intro s r s' r' rest h
    unfold MyEnv.dealerLoop at h
    by_cases hlt : sum_hand s.dealer < 17
    · simp [hlt] at h
    · simp [hlt] at h
      obtain ⟨h1, _, h3⟩ := h
      subst h1
      exact ⟨rfl, rfl, by omega, [], by simp, by simp⟩
  | cons n st ih =>
    intro s r s' r' rest h
    unfold MyEnv.dealerLoop at h
    by_cases hlt : sum_hand s.dealer < 17
    · rw [if_pos hlt] at h
      cases hd : s.drawRecord n with
      | none => rw [hd] at h; cases h
      | some v =>
        obtain ⟨card, r0, t⟩ := v
        rw [hd] at h
        obtain ⟨hp, hdl, hn, _⟩ := drawRecord_frame hd
        obtain ⟨ihp, ihn, ih17, taken, ihd, ihk⟩ := ih _ _ _ _ _ h
        refine ⟨by simpa [hp] using ihp, by simpa [hn] using ihn, ih17,
          card :: taken, by simpa [hdl] using ihd, ?_⟩
        intro k hklen
        cases k with
        | zero => simpa using hlt
        | succ j =>
          have := ihk j (by simpa using hklen)
          simp only [hdl] at this
          rw [List.append_assoc] at this
          simpa [List.take_succ_cons] using this
    · rw [if_neg hlt] at h
      injection h with h
      injection h with h1 h
      injection h with h2 h3
      subst h1
      exact ⟨rfl, rfl, by omega, [], by simp, by simp⟩

/-- The reshuffle flag threads through the dealer loop as a pure disjunction
accumulator. -/
lemma dealerLoop_acc :
    ∀ (stream : List Nat) (s : MyEnv) (r : Bool),
      MyEnv.dealerLoop s r stream =
        (MyEnv.dealerLoop s false stream).map (fun t => (t.1, r || t.2.1, t.2.2)) := by
  intro stream
  induction stream with
  | nil =>
    intro s r
    unfold MyEnv.dealerLoop
    by_cases hlt : sum_hand s.dealer < 17 <;> simp [hlt]
  | cons n st ih =>
    intro s r
    unfold MyEnv.dealerLoop
    by_cases hlt : sum_hand s.dealer < 17
    · rw [if_pos hlt, if_pos hlt]
      cases hd : s.drawRecord n with
      | none => simp
      | some v =>
        obtain ⟨card, r0, t⟩ := v
        simp only []
        rw [ih _ (r || r0), ih _ (false || r0)]
        cases hres : MyEnv.dealerLoop { t with dealer := t.dealer ++ [card] } false st with
        | none => simp
        | some w => simp [Bool.or_assoc]
    · rw [if_neg hlt, if_neg hlt]
      simp

/-! ### Claim theorems -/

/-- C6: for every non-empty hand of card values in [1,10], `is_bust(hand)`
equals `sum_hand(hand) > 21`, and `score(hand)` is 0 when bust and
`sum_hand(hand)` otherwise. -/
theorem bust_and_score_spec (hand : List Nat) (hne : hand ≠ [])
    (hvals : ∀ c ∈ hand, 1 ≤ c ∧ c ≤ 10) :
    is_bust hand = decide (sum_hand hand > 21) ∧
      score hand = if is_bust hand = true then 0 else sum_hand hand :=
  ⟨rfl, rfl⟩

/-- Witness for C6 at the concrete bust hand `[10, 10, 5]`. -/
theorem bust_and_score_spec_witness :
    is_bust [10, 10, 5] = decide (sum_hand [10, 10, 5] > 21) ∧
      score [10, 10, 5] = if is_bust [10, 10, 5] = true then 0 else sum_hand [10, 10, 5] :=
  bust_and_score_spec [10, 10, 5] (by decide) (by decide)

/-- C7: `usable_ace(hand)` holds iff the hand contains an Ace and
`sum(hand) + 10 ≤ 21`, and `sum_hand` adds 10 exactly when the ace is
usable. -/
theorem usable_ace_and_total_spec (hand : List Nat) :
    (usable_ace hand = true ↔ 1 ∈ hand ∧ hand.sum + 10 ≤ 21) ∧
      sum_hand hand = if usable_ace hand = true then hand.sum + 10 else hand.sum :=
  ⟨usable_ace_iff hand, rfl⟩

/-- C9: in both simulators, an action outside {0,1,2} is rejected (embedded
as `none`: the infinite-deck env fails its entry assertion, the finite-deck
env falls through all branches and raises on the unbound `reward`), so no
updated hands are produced. -/
theorem invalid_action_rejected (natural : Bool) (player dealer : List Nat)
    (s : MyEnv) (stream : List Nat) (action : Nat)
    (h0 : action ≠ 0) (h1 : action ≠ 1) (h2 : action ≠ 2) :
    BlackjackEnv.step natural player dealer action stream = none ∧
      MyEnv.step s action stream = none := by
  unfold BlackjackEnv.step MyEnv.step
  rw [if_neg h1, if_neg h0, if_neg h2, if_neg h1, if_neg h0, if_neg h2]
  exact ⟨rfl, rfl⟩

/-- Witness for C9 at the concrete invalid action 3. -/
theorem invalid_action_rejected_witness :
    BlackjackEnv.step false [10, 5] [7, 9] 3 [2] = none ∧
      MyEnv.step ⟨Deck.reset, false, [10, 5], [7, 9], []⟩ 3 [2] = none :=
  invalid_action_rejected false [10, 5] [7, 9] ⟨Deck.reset, false, [10, 5], [7, 9], []⟩
    [2] 3 (by decide) (by decide) (by decide)

/-- C8: in both simulators, hit (action 1) appends exactly one drawn card to
the player's hand, leaves the dealer's hand unchanged, and returns reward −1
with done = true when the new hand is bust, else reward 0 with
done = false. -/
theorem hit_spec :
    (∀ (natural : Bool) (player dealer : List Nat) (c : Nat) (stream : List Nat),
      BlackjackEnv.step natural player dealer 1 (c :: stream) =
        some ⟨player ++ [c], dealer, getObs (player ++ [c]) dealer,
          if is_bust (player ++ [c]) then -1 else 0, is_bust (player ++ [c]), stream⟩) ∧
    (∀ (s : MyEnv) (n : Nat) (stream : List Nat) (t : MyStep),
      MyEnv.step s 1 (n :: stream) = some t →
      ∃ card r s1, s.drawRecord n = some (card, r, s1) ∧
        t.env.player = s.player ++ [card] ∧ t.env.dealer = s.dealer ∧
        t.reward = (if is_bust t.env.player then -1 else 0) ∧
        t.done = is_bust t.env.player ∧ t.reseted = r ∧ t.rest = stream) := by
  constructor
  · intro natural player dealer c stream
    unfold BlackjackEnv.step
    by_cases hb : is_bust (player ++ [c]) <;> simp [hb]
  · intro s n stream t h
    cases hd : s.drawRecord n with
    | none => simp [MyEnv.step, hd] at h
    | some v =>
      obtain ⟨card, r, s1⟩ := v
      simp only [MyEnv.step, hd] at h
      obtain ⟨hp, hdl, _, _⟩ := drawRecord_frame hd
      refine ⟨card, r, s1, rfl, ?_⟩
      by_cases hb : is_bust (s1.player ++ [card]) = true
      · rw [if_pos hb] at h
        injection h with h
        subst h
        rw [hp] at hb
        simp [hb, hp, hdl]
      · rw [if_neg hb] at h
        injection h with h
        subst h
        have hf : is_bust (s1.player ++ [card]) = false := by simpa using hb
        rw [hp] at hf
        simp [hf, hp, hdl]

/-- Witness for C8: hitting `[10, 10]` with a drawn 5 busts in both
simulators. -/
theorem hit_spec_witness :
    BlackjackEnv.step false [10, 10] [7, 9] 1 [5] =
      some ⟨[10, 10, 5], [7, 9], getObs [10, 10, 5] [7, 9],
        if is_bust [10, 10, 5] then -1 else 0, is_bust [10, 10, 5], []⟩ ∧
    (∃ card r s1,
      MyEnv.drawRecord ⟨[5, 2], false, [10, 10], [7, 9], []⟩ 0 = some (card, r, s1) ∧
      ([10, 10, 5] : List Nat) = [10, 10] ++ [card] ∧ ([7, 9] : List Nat) = [7, 9] ∧
      (-1 : ℚ) = (if is_bust [10, 10, 5] then -1 else 0) ∧
      (true = is_bust [10, 10, 5]) ∧ (false = r) ∧ ([] : List Nat) = []) := by
  constructor
  · exact hit_spec.1 false [10, 10] [7, 9] 5 []
  · have h := hit_spec.2 ⟨[5, 2], false, [10, 10], [7, 9], []⟩ 0 []
      ⟨⟨[2], false, [10, 10, 5], [7, 9], [5]⟩, getObs [10, 10, 5] [7, 9], -1, true, false, []⟩
      (by decide)
    obtain ⟨card, r, s1, h1, h2, h3, h4, h5, h6, h7⟩ := h
    exact ⟨card, r, s1, h1, by simpa using h2, by simpa using h3, by simpa using h4,
      by simpa using h5, by simpa using h6, rfl⟩

/-- C3: in both simulators, stick (action 0) leaves the player's hand
unchanged, runs the dealer to a total ≥ 17, ends the episode, and returns
`cmp(score(player), score(dealer)) ∈ {−1,0,1}` upgraded to 3/2 exactly when
the natural flag is set, the player's hand is natural and the sign is +1. -/
theorem stick_spec :
    (∀ (natural : Bool) (player dealer stream : List Nat) (t : BJStep),
      BlackjackEnv.step natural player dealer 0 stream = some t →
      t.player = player ∧ t.done = true ∧ 17 ≤ sum_hand t.dealer ∧
      dealerPlay dealer stream = some (t.dealer, t.rest) ∧
      (cmp (score player) (score t.dealer) = -1 ∨ cmp (score player) (score t.dealer) = 0 ∨
        cmp (score player) (score t.dealer) = 1) ∧
      t.reward = (if natural = true ∧ is_natural player = true ∧
          cmp (score player) (score t.dealer) = 1 then (3 / 2 : ℚ)
        else cmp (score player) (score t.dealer))) ∧
    (∀ (s : MyEnv) (stream : List Nat) (t : MyStep),
      MyEnv.step s 0 stream = some t →
      t.env.player = s.player ∧ t.done = true ∧ 17 ≤ sum_hand t.env.dealer ∧
      (cmp (score s.player) (score t.env.dealer) = -1 ∨
        cmp (score s.player) (score t.env.dealer) = 0 ∨
        cmp (score s.player) (score t.env.dealer) = 1) ∧
      t.reward = (if s.natural = true ∧ is_natural s.player = true ∧
          cmp (score s.player) (score t.env.dealer) = 1 then (3 / 2 : ℚ)
        else cmp (score s.player) (score t.env.dealer))) := by
  constructor
  · intro natural player dealer stream t h
    cases hd : dealerPlay dealer stream with
    | none => simp [BlackjackEnv.step, hd] at h
    | some v =>
      obtain ⟨d', rest⟩ := v
      simp only [BlackjackEnv.step, hd] at h
      injection h with h
      subst h
      exact ⟨rfl, rfl, (dealerPlay_spec stream dealer d' rest hd).1, rfl,
        cmp_eq_cases _ _, rfl⟩
  · intro s stream t h
    cases hd : MyEnv.dealerLoop s false stream with
    | none => simp [MyEnv.step, hd] at h
    | some v =>
      obtain ⟨s', r', rest⟩ := v
      simp only [MyEnv.step, hd] at h
      injection h with h
      subst h
      obtain ⟨hp, hn, h17, _⟩ := dealerLoop_spec stream s false s' r' rest hd
      rw [hp, hn]
      exact ⟨rfl, rfl, h17, cmp_eq_cases _ _, rfl⟩

/-- Witness for C3: a natural `[1, 10]` against a pat dealer 17 at
`natural = true` pays 3/2. -/
theorem stick_spec_witness :
    ([1, 10] : List Nat) = [1, 10] ∧ true = true ∧ 17 ≤ sum_hand [10, 7] ∧
    dealerPlay [10, 7] [] = some ([10, 7], []) ∧
    (cmp (score [1, 10]) (score [10, 7]) = -1 ∨ cmp (score [1, 10]) (score [10, 7]) = 0 ∨
      cmp (score [1, 10]) (score [10, 7]) = 1) ∧
    (3 / 2 : ℚ) = (if true = true ∧ is_natural [1, 10] = true ∧
        cmp (score [1, 10]) (score [10, 7]) = 1 then (3 / 2 : ℚ)
      else cmp (score [1, 10]) (score [10, 7])) :=
  stick_spec.1 true [1, 10] [10, 7] [] ⟨[1, 10], [10, 7], (21, 10, true), 3 / 2, true, []⟩
    (by norm_num [BlackjackEnv.step, dealerPlay, getObs, cmp, score, is_bust, sum_hand,
      usable_ace, is_natural, pySorted, insertSorted])

/-- C2: in both simulators, double (action 2) draws exactly one card for the
player, then behaves as a stick from the post-hit state with the final reward
doubled; the episode always ends, and no player-bust check occurs before
dealer play — a busted hand simply enters the comparison with score 0. -/
theorem double_matches_stick_doubled :
    (∀ (natural : Bool) (player dealer : List Nat) (c : Nat) (stream : List Nat),
      BlackjackEnv.step natural player dealer 2 (c :: stream) =
        (BlackjackEnv.step natural (player ++ [c]) dealer 0 stream).map
          (fun t => { t with reward := 2 * t.reward })) ∧
    (∀ (s : MyEnv) (n : Nat) (stream : List Nat),
      MyEnv.step s 2 (n :: stream) =
        (s.drawRecord n).bind (fun x =>
          (MyEnv.step { x.2.2 with player := x.2.2.player ++ [x.1] } 0 stream).map
            (fun t => { t with reward := 2 * t.reward, reseted := x.2.1 || t.reseted }))) ∧
    (∀ (natural : Bool) (player dealer : List Nat) (c : Nat) (stream : List Nat) (t : BJStep),
      BlackjackEnv.step natural player dealer 2 (c :: stream) = some t →
      t.player = player ++ [c] ∧ t.done = true) ∧
    (∀ (s : MyEnv) (n : Nat) (stream : List Nat) (t : MyStep),
      MyEnv.step s 2 (n :: stream) = some t →
      (∃ card r0 s1, s.drawRecord n = some (card, r0, s1) ∧
        t.env.player = s.player ++ [card]) ∧ t.done = true) ∧
    (∀ hand : List Nat, is_bust hand = true → score hand = 0) := by
  refine ⟨?_, ?_, ?_, ?_, fun hand h => score_of_bust h⟩
  · intro natural player dealer c stream
    cases hd : dealerPlay dealer stream with
    | none => simp [BlackjackEnv.step, hd]
    | some v =>
      obtain ⟨d', rest⟩ := v
      simp [BlackjackEnv.step, hd]
  · intro s n stream
    cases hd : s.drawRecord n with
    | none => simp [MyEnv.step, hd]
    | some v =>
      obtain ⟨card, r0, s1⟩ := v
      simp only [MyEnv.step, hd, Option.some_bind]
      rw [dealerLoop_acc stream { s1 with player := s1.player ++ [card] } r0]
      cases hl : MyEnv.dealerLoop { s1 with player := s1.player ++ [card] } false stream with
      | none => simp
      | some w =>
        obtain ⟨s', r', rest'⟩ := w
        simp
  · intro natural player dealer c stream t h
    cases hd : dealerPlay dealer stream with
    | none => simp [BlackjackEnv.step, hd] at h
    | some v =>
      obtain ⟨d', rest⟩ := v
      simp only [BlackjackEnv.step, hd] at h
      injection h with h
      subst h
      exact ⟨rfl, rfl⟩
  · intro s n stream t h
    cases hd : s.drawRecord n with
    | none => simp [MyEnv.step, hd] at h
    | some v =>
      obtain ⟨card, r0, s1⟩ := v
      cases hl : MyEnv.dealerLoop { s1 with player := s1.player ++ [card] } r0 stream with
      | none => simp [MyEnv.step, hd, hl] at h
      | some w =>
        obtain ⟨s', r', rest'⟩ := w
        simp only [MyEnv.step, hd, hl] at h
        injection h with h
        subst h
        obtain ⟨hp, _, _, _⟩ := dealerLoop_spec stream _ r0 s' r' rest' hl
        obtain ⟨hp1, _, _, _⟩ := drawRecord_frame hd
        refine ⟨⟨card, r0, s1, rfl, ?_⟩, rfl⟩
        show s'.player = s.player ++ [card]
        rw [hp]
        show s1.player ++ [card] = s.player ++ [card]
        rw [hp1]

/-- Witness for C2 at a concrete bust hand. -/
theorem double_matches_stick_doubled_witness :
    is_bust [10, 10, 5] = true ∧ score [10, 10, 5] = 0 :=
  ⟨by decide, double_matches_stick_doubled.2.2.2.2 [10, 10, 5] (by decide)⟩

/-- C4: in both simulators the dealer draws exactly while the dealer total is
below 17 — every draw happens from a total < 17 and the loop (hence any stick
or double call that returns) ends with the dealer total ≥ 17. -/
theorem dealer_loop_runs_to_seventeen :
    (∀ (dealer stream d' rest : List Nat), dealerPlay dealer stream = some (d', rest) →
      17 ≤ sum_hand d' ∧ ∃ taken, d' = dealer ++ taken ∧ stream = taken ++ rest ∧
        ∀ k, k < taken.length → sum_hand (dealer ++ taken.take k) < 17) ∧
    (∀ (s : MyEnv) (r : Bool) (stream : List Nat) (s' : MyEnv) (r' : Bool) (rest : List Nat),
      MyEnv.dealerLoop s r stream = some (s', r', rest) →
      17 ≤ sum_hand s'.dealer ∧ ∃ taken, s'.dealer = s.dealer ++ taken ∧
        ∀ k, k < taken.length → sum_hand (s.dealer ++ taken.take k) < 17) ∧
    (∀ (natural : Bool) (player dealer stream : List Nat) (t : BJStep) (a : Nat),
      (a = 0 ∨ a = 2) → BlackjackEnv.step natural player dealer a stream = some t →
      17 ≤ sum_hand t.dealer) ∧
    (∀ (s : MyEnv) (stream : List Nat) (t : MyStep) (a : Nat),
      (a = 0 ∨ a = 2) → MyEnv.step s a stream = some t →
      17 ≤ sum_hand t.env.dealer) := by
  refine ⟨?_, ?_, ?_, ?_⟩
  · intro dealer stream d' rest h
    exact dealerPlay_spec stream dealer d' rest h
  · intro s r stream s' r' rest h
    obtain ⟨_, _, h17, taken, hd, hk⟩ := dealerLoop_spec stream s r s' r' rest h
    exact ⟨h17, taken, hd, hk⟩
  · intro natural player dealer stream t a ha h
    rcases ha with rfl | rfl
    · cases hd : dealerPlay dealer stream with
      | none => simp [BlackjackEnv.step, hd] at h
      | some v =>
        obtain ⟨d', rest⟩ := v
        simp only [BlackjackEnv.step, hd] at h
        injection h with h
        subst h
        exact (dealerPlay_spec stream dealer d' rest hd).1
    · cases stream with
      | nil => simp [BlackjackEnv.step] at h
      | cons c rest0 =>
        cases hd : dealerPlay dealer rest0 with
        | none => simp [BlackjackEnv.step, hd] at h
        | some v =>
          obtain ⟨d', rest⟩ := v
          simp only [BlackjackEnv.step, hd] at h
          injection h with h
          subst h
          exact (dealerPlay_spec rest0 dealer d' rest hd).1
  · intro s stream t a ha h
    rcases ha with rfl | rfl
    · cases hd : MyEnv.dealerLoop s false stream with
      | none => simp [MyEnv.step, hd] at h
      | some v =>
        obtain ⟨s', r', rest⟩ := v
        simp only [MyEnv.step, hd] at h
        injection h with h
        subst h
        exact (dealerLoop_spec stream s false s' r' rest hd).2.2.1
    · cases stream with
      | nil => simp [MyEnv.step] at h
      | cons n rest0 =>
        cases hdr : s.drawRecord n with
        | none => simp [MyEnv.step, hdr] at h
        | some v =>
          obtain ⟨card, r0, s1⟩ := v
          cases hl : MyEnv.dealerLoop { s1 with player := s1.player ++ [card] } r0 rest0 with
          | none => simp [MyEnv.step, hdr, hl] at h
          | some w =>
            obtain ⟨s', r', rest'⟩ := w
            simp only [MyEnv.step, hdr, hl] at h
            injection h with h
            subst h
            exact (dealerLoop_spec rest0 _ r0 s' r' rest' hl).2.2.1

/-- Witness for C4: a dealer holding 17 draws nothing. -/
theorem dealer_loop_runs_to_seventeen_witness :
    17 ≤ sum_hand [10, 7] ∧ ∃ taken, ([10, 7] : List Nat) = [10, 7] ++ taken ∧
      ([] : List Nat) = taken ++ [] ∧
      ∀ k, k < taken.length → sum_hand ([10, 7] ++ taken.take k) < 17 :=
  dealer_loop_runs_to_seventeen.1 [10, 7] [] [10, 7] [] (by decide)

/-- C10: with at least two cards already in hand, a double can never hit the
natural 3/2 upgrade (the post-hit hand has ≥ 3 cards), so its reward is
always one of −2, 0, 2. -/
theorem double_reward_values :
    (∀ (natural : Bool) (player dealer stream : List Nat) (t : BJStep),
      2 ≤ player.length → BlackjackEnv.step natural player dealer 2 stream = some t →
      t.reward = -2 ∨ t.reward = 0 ∨ t.reward = 2) ∧
    (∀ (s : MyEnv) (stream : List Nat) (t : MyStep),
      2 ≤ s.player.length → MyEnv.step s 2 stream = some t →
      t.reward = -2 ∨ t.reward = 0 ∨ t.reward = 2) := by
  constructor
  · intro natural player dealer stream t hlen h
    cases stream with
    | nil => simp [BlackjackEnv.step] at h
    | cons c rest0 =>
      cases hd : dealerPlay dealer rest0 with
      | none => simp [BlackjackEnv.step, hd] at h
      | some v =>
        obtain ⟨d', rest⟩ := v
        simp only [BlackjackEnv.step, hd] at h
        injection h with h
        subst h
        have hnat : is_natural (player ++ [c]) = false :=
          is_natural_of_long (by simp; omega)
        show 2 * _ = -2 ∨ 2 * _ = 0 ∨ 2 * _ = 2
        rw [if_neg (by simp [hnat])]
        rcases cmp_eq_cases (score (player ++ [c])) (score d') with hc | hc | hc <;>
          rw [hc] <;> norm_num
  · intro s stream t hlen h
    cases stream with
    | nil => simp [MyEnv.step] at h
    | cons n rest0 =>
      cases hdr : s.drawRecord n with
      | none => simp [MyEnv.step, hdr] at h
      | some v =>
        obtain ⟨card, r0, s1⟩ := v
        cases hl : MyEnv.dealerLoop { s1 with player := s1.player ++ [card] } r0 rest0 with
        | none => simp [MyEnv.step, hdr, hl] at h
        | some w =>
          obtain ⟨s', r', rest'⟩ := w
          simp only [MyEnv.step, hdr, hl] at h
          injection h with h
          subst h
          obtain ⟨hp, _, _, _⟩ := dealerLoop_spec rest0 _ r0 s' r' rest' hl
          obtain ⟨hp1, _, _, _⟩ := drawRecord_frame hdr
          have hplen : s'.player = s.player ++ [card] := by
            rw [hp]
            show s1.player ++ [card] = s.player ++ [card]
            rw [hp1]
          have hnat : is_natural s'.player = false := by
            rw [hplen]
            exact is_natural_of_long (by simp; omega)
          show 2 * _ = -2 ∨ 2 * _ = 0 ∨ 2 * _ = 2
          rw [if_neg (by simp [hnat])]
          rcases cmp_eq_cases (score s'.player) (score s'.dealer) with hc | hc | hc <;>
            rw [hc] <;> norm_num

/-- Witness for C10: doubling `[5, 6]` into a 10 against a pat 17 returns 2. -/
theorem double_reward_values_witness :
    (2 : ℚ) = -2 ∨ (2 : ℚ) = 0 ∨ (2 : ℚ) = 2 :=
  double_reward_values.1 false [5, 6] [10, 7] [10]
    ⟨[5, 6, 10], [10, 7], (21, 10, false), 2, true, []⟩ (by decide)
    (by norm_num [BlackjackEnv.step, dealerPlay, getObs, cmp, score, is_bust, sum_hand,
      usable_ace, is_natural, pySorted, insertSorted])

/-- C5: the shoe resets to four copies of 1..9 plus sixteen 10s (52 cards);
from a full shoe the first 51 draws report no reshuffle, the 52nd reports one
and leaves a fresh full shoe, and no draw ever leaves the shoe empty. -/
theorem deck_composition_and_reshuffle :
    Deck.reset.length = 52 ∧
    (∀ v ∈ List.range' 1 9, Deck.reset.count v = 4) ∧
    Deck.reset.count 10 = 16 ∧
    (∀ ns : List Nat, ns.length = 52 →
      drawN Deck.reset ns = some (List.replicate 51 false ++ [true], Deck.reset)) ∧
    (∀ (cards : List Nat) (n c : Nat) (r : Bool) (cards' : List Nat),
      Deck.draw cards n = some (c, r, cards') → cards' ≠ []) := by
  refine ⟨by decide, by decide, by decide, ?_, ?_⟩
  · intro ns hns
    have h := drawN_full_pass ns Deck.reset Deck.reset_ne_nil (by rw [hns]; decide)
    rw [hns] at h
    simpa using h
  · intro cards n c r cards' h
    exact Deck.draw_result_ne_nil h

/-- Witness for C5: a full pass over the shoe with indices 0..51. -/
theorem deck_composition_and_reshuffle_witness :
    drawN Deck.reset (List.range 52) = some (List.replicate 51 false ++ [true], Deck.reset) :=
  deck_composition_and_reshuffle.2.2.2.1 (List.range 52) (by decide)

/-- C1 counterexample: drawing the last card of the shoe during a hit reports
a reshuffle, but the exposure record ends empty — the triggering card (a 5)
is NOT the one entry of the histogram, which is all zeros. -/
theorem exposure_record_not_kept_on_reshuffle :
    (MyEnv.step ⟨[5], false, [10, 9], [10, 7], [2, 3]⟩ 1 [0]).map
        (fun t => (t.reseted, t.env.cards, cards_to_index t.env.cards)) =
      some (true, [], List.replicate 10 0) := by decide

/-- C1 (amended): whenever a draw during `reset` or `step` reports a
reshuffle, the exposure record is cleared to empty — the triggering card is
appended first and then discarded by the clear, so immediately after a
reshuffle-triggering draw the histogram is all zeros; at every point the
histogram counts, at index v−1, the occurrences of value v recorded since
(strictly after) the most recent reshuffle-triggering draw. -/
theorem exposure_record_semantics :
    (∀ (s : MyEnv) (n card : Nat) (r : Bool) (s' : MyEnv),
      s.drawRecord n = some (card, r, s') →
      s'.cards = if r = true then [] else s.cards ++ [card]) ∧
    cards_to_index [] = List.replicate 10 0 ∧
    (∀ cs : List Nat, (∀ c ∈ cs, 1 ≤ c ∧ c ≤ 10) →
      ∀ v, 1 ≤ v → v ≤ 10 → (cards_to_index cs).getD (v - 1) 0 = cs.count v) := by
  refine ⟨?_, rfl, ?_⟩
  · intro s n card r s' h
    exact (drawRecord_frame h).2.2.2
  · intro cs hcs v h1 h10
    exact cards_to_index_count hcs h1 h10

/-- Witness for C1 (amended): the reshuffle-triggering draw above clears the
record, and the histogram of `[5, 5, 10]` counts two 5s. -/
theorem exposure_record_semantics_witness :
    (⟨Deck.reset, false, [10, 9], [10, 7], []⟩ : MyEnv).cards =
      (if true = true then [] else [2, 3] ++ [5]) ∧
    (cards_to_index [5, 5, 10]).getD (5 - 1) 0 = [5, 5, 10].count 5 :=
  ⟨exposure_record_semantics.1 ⟨[5], false, [10, 9], [10, 7], [2, 3]⟩ 0 5 true
      ⟨Deck.reset, false, [10, 9], [10, 7], []⟩ (by decide),
    exposure_record_semantics.2.2 [5, 5, 10] (by decide) 5 (by decide) (by decide)⟩

end Blackjack
